import Mathlib

/-!
Shallow embedding of `src/code/abstraction/fold-concat.c`.

The C file builds generic fold (reduce) operations over three sequence
shapes — plain int arrays, singly-linked string lists, and counted
arrays — and composes them into a `concat` operation that joins the
strings of a collection into one freshly `malloc`ed buffer.

Modelling conventions:
* a C string (`char*` pointing at NUL-terminated characters) is a
  `List Char` of its characters before the terminator (`Str`);
* a heap buffer obtained from `malloc` is a `List Cell`, where each
  byte is either uninitialized (`Cell.undef`, what `malloc` yields),
  the NUL terminator (`Cell.nul`), or an ordinary character;
* allocation success/failure is an explicit `alloc_ok : Bool`
  parameter of the operations that call `malloc`;
* the `void*` genericity obtained in C through function-pointer casts
  is modelled by making the folds polymorphic in the element and
  accumulator types;
* out-of-bounds array reads are undefined behaviour in C; the model's
  array folds stop at the end of the backing storage, and theorems
  about arrays only use in-bounds lengths.
-/

/-- A C string: the characters that precede the NUL terminator. -/
abbrev Str := List Char

/-- `strlen`: number of characters before the terminator. -/
def strlen (s : Str) : Nat := s.length

/-- Loop of `sum_array_direct`: `for (i = 0; i < length; i++) sum += xs[i];`. -/
def sum_array_direct_loop : List Int → Nat → Int → Int
  | _, 0, s => s
  | [], _ + 1, s => s
  | x :: xs, n + 1, s => sum_array_direct_loop xs n (s + x)

/-- `int sum_array_direct(int *xs, int length)`: direct-loop summation. -/
def sum_array_direct (xs : List Int) (length : Nat) : Int :=
  sum_array_direct_loop xs length 0

/-- `int fold_int_array(int *array, int length, int init, int_binop op)`:
`value = init; for (i = 0; i < length; i++) value = op(value, array[i]);`. -/
def fold_int_array : List Int → Nat → Int → (Int → Int → Int) → Int
  | _, 0, value, _ => value
  | [], _ + 1, value, _ => value
  | x :: xs, n + 1, value, op => fold_int_array xs n (op value x) op

/-- `int sum(int x, int y)`: the addition operator wrapped in a function. -/
def sum (x y : Int) : Int := x + y

/-- `int sum_array(int *array, int length)`: array sum via the fold. -/
def sum_array (array : List Int) (length : Nat) : Int :=
  fold_int_array array length 0 sum

/-- Loop of `size_list`: `while (list) { size += strlen(list->value); list = list->next; }`. -/
def size_list_loop : List Str → Nat → Nat
  | [], size => size
  | s :: l, size => size_list_loop l (size + strlen s)

/-- `int size_list(string_list *list)`: total character count of a string list. -/
def size_list (l : List Str) : Nat := size_list_loop l 0

/-- One byte of a heap buffer: uninitialized (as delivered by `malloc`),
the NUL terminator, or an ordinary character. -/
inductive Cell
  | undef
  | nul
  | ch (c : Char)
  deriving DecidableEq

/-- A heap buffer: the sequence of bytes of one `malloc` allocation. -/
abbrev Buffer := List Cell

/-- `malloc(n)` on success: `n` uninitialized bytes. -/
def malloc_buffer (n : Nat) : Buffer := List.replicate n Cell.undef

/-- `char *stpcpy(char *dst, char *src)`: copies the characters of `src`
followed by the NUL terminator into the buffer starting at position `p`,
returning the buffer and the position of the copied NUL. -/
def stpcpy : Buffer → Nat → Str → Buffer × Nat
  | buf, p, [] => (buf.set p Cell.nul, p)
  | buf, p, c :: cs => stpcpy (buf.set p (Cell.ch c)) (p + 1) cs

/-- Reading a buffer as a C string: the characters up to the first NUL.
Reading an uninitialized byte, or running past the end of the
allocation, is undefined behaviour, modelled as `none`. -/
def read_cstring : Buffer → Option Str
  | [] => none
  | Cell.nul :: _ => some []
  | Cell.undef :: _ => none
  | Cell.ch c :: rest => (read_cstring rest).map (fun s => c :: s)

/-- The `char*` accumulator threaded through a copy pass: a write cursor
into the allocated buffer, the NULL pointer produced by a failed
`malloc`, or the poisoned state reached by writing through NULL. -/
inductive CopyAcc
  | cursor (buf : Buffer) (p : Nat)
  | nullPtr
  | fault
  deriving DecidableEq

/-- `stpcpy` used as the binary operator of a fold, acting on the cursor
accumulator. Calling it on the NULL pointer writes through NULL. -/
def stpcpy_acc : CopyAcc → Str → CopyAcc
  | CopyAcc.cursor buf p, s => CopyAcc.cursor (stpcpy buf p s).1 (stpcpy buf p s).2
  | CopyAcc.nullPtr, _ => CopyAcc.fault
  | CopyAcc.fault, _ => CopyAcc.fault

/-- Observable outcome of a concatenation operation: the buffer that the
returned pointer designates (`none` for a NULL return), and whether a
write through a NULL pointer occurred during the call. -/
structure ConcatResult where
  ret : Option Buffer
  nullWrite : Bool
  deriving DecidableEq

/-- Loop of `concat_list`: `outp = outbuf; while (list) { outp = stpcpy(outp, list->value); list = list->next; }`. -/
def concat_list_loop : Buffer → Nat → List Str → Buffer
  | buf, _, [] => buf
  | buf, p, s :: l => concat_list_loop (stpcpy buf p s).1 (stpcpy buf p s).2 l

/-- `char* concat_list(string_list *list)`: allocates `size_list(list)+1`
bytes and, only if the allocation succeeded, copies each element in
order with `stpcpy`. -/
def concat_list (l : List Str) (alloc_ok : Bool) : ConcatResult :=
  if alloc_ok then
    ⟨some (concat_list_loop (malloc_buffer (size_list l + 1)) 0 l), false⟩
  else
    ⟨none, false⟩

/-- `char* fold_string_list(string_list* list, char* init, string_binop op)`:
`value = init; while (list) { value = op(value, list->value); list = list->next; }`.
The C version forces every accumulator through `char*` by casts; the
model is polymorphic in the accumulator type instead. -/
def fold_string_list {α : Type} : List Str → α → (α → Str → α) → α
  | [], value, _ => value
  | s :: l, value, op => fold_string_list l (op value s) op

/-- `int accumulate_length(int sum, char* string)`: `sum + strlen(string)`. -/
def accumulate_length (sum : Nat) (string : Str) : Nat := sum + strlen string

/-- `char* concat_string_list(string_list* list)`: sizes the output with a
length fold, allocates, and only if the allocation succeeded runs the
copy fold (`fold_string_list(list, outbuf, stpcpy)`). -/
def concat_string_list (l : List Str) (alloc_ok : Bool) : ConcatResult :=
  if alloc_ok then
    match fold_string_list l
        (CopyAcc.cursor (malloc_buffer (fold_string_list l 0 accumulate_length + 1)) 0)
        stpcpy_acc with
    | CopyAcc.cursor buf _ => ⟨some buf, false⟩
    | CopyAcc.nullPtr => ⟨none, false⟩
    | CopyAcc.fault => ⟨none, true⟩
  else
    ⟨none, false⟩

/-- `int fold_array(void **array, int length, void* init, binop op)`:
the generic array fold (the C declaration's `int` return type is a slip
in the source; the function returns the accumulator `value`). -/
def fold_array {ε α : Type} : List ε → Nat → α → (α → ε → α) → α
  | _, 0, value, _ => value
  | [], _ + 1, value, _ => value
  | x :: xs, n + 1, value, op => fold_array xs n (op value x) op

/-- `void* fold_list(list* list, void* init, binop op)`: the generic
linked-list fold. -/
def fold_list {ε α : Type} : List ε → α → (α → ε → α) → α
  | [], value, _ => value
  | v :: l, value, op => fold_list l (op value v) op

/-- `char *concat(fold_fn fold, void * collection)`: the C `fold_fn`
erases types through `void*`; the model receives the fold polymorphic in
the accumulator type and instantiates it at the two accumulator types
the body actually uses (a running length, and a write cursor). Unlike
`concat_string_list`, `concat` runs the copy fold without checking the
allocation: on a failed `malloc` the copy fold receives the NULL
pointer. The buffer is threaded through the copy accumulator, which is
faithful for the repository's folds, all of which thread `stpcpy`'s
cursor left to right. -/
def concat {γ : Type} (fold : (α : Type) → γ → α → (α → Str → α) → α)
    (collection : γ) (alloc_ok : Bool) : ConcatResult :=
  let n := fold Nat collection 0 accumulate_length
  let init : CopyAcc :=
    if alloc_ok then CopyAcc.cursor (malloc_buffer (n + 1)) 0 else CopyAcc.nullPtr
  match fold CopyAcc collection init stpcpy_acc with
  | CopyAcc.cursor buf _ => ⟨some buf, false⟩
  | CopyAcc.nullPtr => ⟨none, false⟩
  | CopyAcc.fault => ⟨none, true⟩

/-- `struct _counted_array { void *value; int length; }`. -/
structure counted_array (ε : Type) where
  value : List ε
  length : Nat

/-- `void* fold_counted_array(counted_array* array, void* init, binop op)`:
delegates to `fold_array` with the stored length. -/
def fold_counted_array {ε α : Type} (a : counted_array ε) (init : α) (op : α → ε → α) : α :=
  fold_array a.value a.length init op

/-- A heap node of `struct _string_list`: one element value and the
address of the next node (`none` for the NULL tail). -/
structure string_list_node where
  value : Str
  next : Option Nat
  deriving DecidableEq

/-- A heap of list nodes; a node's address is its index. -/
abbrev Heap := List string_list_node

/-- The chain of nodes starting at the given address spells out the
given sequence of element strings. -/
inductive represents : Heap → Option Nat → List Str → Prop
  | nil (h : Heap) : represents h none []
  | cons (h : Heap) (a : Nat) (s : Str) (nxt : Option Nat) (l : List Str) :
      h.get? a = some ⟨s, nxt⟩ → represents h nxt l → represents h (some a) (s :: l)

/-- `fold_string_list` executed against an explicit heap: each iteration
reads `list->value` and `list->next` and applies the reducer; the body
contains no store, so the heap is handed back unchanged. Dereferencing
an invalid address, or failing to reach NULL within the fuel bound, is
`none`. -/
def fold_string_list_mem {α : Type} : Nat → Heap → Option Nat → α → (α → Str → α) → Option (α × Heap)
  | _, h, none, value, _ => some (value, h)
  | fuel + 1, h, some a, value, op =>
    match h.get? a with
    | some nd => fold_string_list_mem fuel h nd.next (op value nd.value) op
    | none => none
  | 0, _, some _, _, _ => none

/-! ### Basic characterizations of the folds -/

theorem fold_list_eq_foldl {ε α : Type} (l : List ε) (init : α) (op : α → ε → α) :
    fold_list l init op = l.foldl op init := by
  induction l generalizing init with
  | nil => rfl
  | cons x xs ih => simpa [fold_list] using ih (op init x)

theorem fold_string_list_eq_foldl {α : Type} (l : List Str) (init : α) (op : α → Str → α) :
    fold_string_list l init op = l.foldl op init := by
  induction l generalizing init with
  | nil => rfl
  | cons s t ih => simpa [fold_string_list] using ih (op init s)

theorem fold_string_list_eq_fold_list {α : Type} (l : List Str) (init : α) (op : α → Str → α) :
    fold_string_list l init op = fold_list l init op := by
  rw [fold_string_list_eq_foldl, fold_list_eq_foldl]

theorem fold_int_array_eq_foldl (xs : List Int) (init : Int) (op : Int → Int → Int) :
    fold_int_array xs xs.length init op = xs.foldl op init := by
  induction xs generalizing init with
  | nil => rfl
  | cons x t ih => simpa [fold_int_array] using ih (op init x)

theorem fold_array_eq_foldl {ε α : Type} (xs : List ε) (init : α) (op : α → ε → α) :
    fold_array xs xs.length init op = xs.foldl op init := by
  induction xs generalizing init with
  | nil => rfl
  | cons x t ih => simpa [fold_array] using ih (op init x)

theorem fold_array_eq_fold_list {ε α : Type} (xs : List ε) (init : α) (op : α → ε → α) :
    fold_array xs xs.length init op = fold_list xs init op := by
  rw [fold_array_eq_foldl, fold_list_eq_foldl]

theorem fold_counted_array_eq_fold_list {ε α : Type} (xs : List ε) (init : α) (op : α → ε → α) :
    fold_counted_array ⟨xs, xs.length⟩ init op = fold_list xs init op := by
  simpa [fold_counted_array] using fold_array_eq_fold_list xs init op

theorem fold_array_zero {ε α : Type} (xs : List ε) (init : α) (op : α → ε → α) :
    fold_array xs 0 init op = init := by
  cases xs <;> rfl

theorem fold_int_array_zero (xs : List Int) (init : Int) (op : Int → Int → Int) :
    fold_int_array xs 0 init op = init := by
  cases xs <;> rfl

/-- Reading past the declared length never happens: junk stored after the
first `length` elements does not affect the array fold. -/
theorem fold_array_frame {ε α : Type} (xs junk : List ε) (init : α) (op : α → ε → α) :
    fold_array (xs ++ junk) xs.length init op = fold_array xs xs.length init op := by
  induction xs generalizing init with
  | nil => simp [fold_array_zero]
  | cons x t ih => simpa [fold_array] using ih (op init x)

theorem foldl_snoc_trace {ε : Type} (l acc : List ε) :
    l.foldl (fun t e => t ++ [e]) acc = acc ++ l := by
  induction l generalizing acc with
  | nil => simp
  | cons x t ih => simpa using ih (acc ++ [x])

theorem foldl_count {ε : Type} (l : List ε) (n : Nat) :
    l.foldl (fun k _ => k + 1) n = n + l.length := by
  induction l generalizing n with
  | nil => rfl
  | cons x t ih => simpa [Nat.add_assoc, Nat.add_comm 1 t.length] using ih (n + 1)

theorem foldl_accumulate_length (l : List Str) (n : Nat) :
    l.foldl accumulate_length n = n + l.flatten.length := by
  induction l generalizing n with
  | nil => simp
  | cons s t ih => simp [accumulate_length, strlen, ih (n + s.length), Nat.add_assoc]

theorem size_list_loop_eq (l : List Str) (n : Nat) :
    size_list_loop l n = n + l.flatten.length := by
  induction l generalizing n with
  | nil => simp [size_list_loop]
  | cons s t ih => simp [size_list_loop, strlen, ih (n + s.length), Nat.add_assoc]

theorem size_list_eq_join_length (l : List Str) : size_list l = l.flatten.length := by
  simpa [size_list] using size_list_loop_eq l 0

/-! ### Buffer-level facts about the copy pass -/

theorem set_append_offset (pre rest : Buffer) (c : Cell) :
    (pre ++ rest).set pre.length c = pre ++ rest.set 0 c := by
  induction pre with
  | nil => rfl
  | cons x t ih => simp [List.set, ih]

/-- Effect of one `stpcpy` call on a buffer with enough room after the
cursor: the source's characters and a NUL terminator land at the cursor,
and the returned cursor points at the written NUL. -/
theorem stpcpy_spec (s : Str) (pre rest : Buffer) (hrest : s.length < rest.length) :
    stpcpy (pre ++ rest) pre.length s =
      (pre ++ s.map Cell.ch ++ [Cell.nul] ++ rest.drop (s.length + 1),
        pre.length + s.length) := by
  induction s generalizing pre rest with
  | nil =>
    cases rest with
    | nil => simp at hrest
    | cons r0 rt => simp [stpcpy, set_append_offset, List.set]
  | cons c cs ih =>
    cases rest with
    | nil => simp at hrest
    | cons r0 rt =>
      have h1 : (pre ++ r0 :: rt).set pre.length (Cell.ch c) = (pre ++ [Cell.ch c]) ++ rt := by
        simp [set_append_offset, List.set]
      have h2 : pre.length + 1 = (pre ++ [Cell.ch c]).length := by simp
      have h3 : cs.length < rt.length := by
        simpa using Nat.lt_of_succ_lt_succ hrest
      have h4 := ih (pre ++ [Cell.ch c]) rt h3
      simp only [stpcpy, h1, h2, h4, Prod.mk.injEq]
      refine ⟨?_, ?_⟩
      · simp [List.append_assoc]
      · simp only [List.length_append, List.length_cons, List.length_nil]
        omega

/-- Running the copy fold of a nonempty string list from a cursor with
exactly enough room writes the elements back to back, each `stpcpy`
overwriting the NUL left by the previous one, and leaves a single NUL
after the last character. -/
theorem copy_fold_spec (l : List Str) (hl : l ≠ []) (pre rest : Buffer)
    (hrest : l.flatten.length < rest.length) :
    l.foldl stpcpy_acc (CopyAcc.cursor (pre ++ rest) pre.length) =
      CopyAcc.cursor
        (pre ++ l.flatten.map Cell.ch ++ [Cell.nul] ++ rest.drop (l.flatten.length + 1))
        (pre.length + l.flatten.length) := by
  induction l generalizing pre rest with
  | nil => exact absurd rfl hl
  | cons s t ih =>
    have hs : s.length < rest.length := by
      have : s.length ≤ (s :: t).flatten.length := by simp
      omega
    have hstep : stpcpy_acc (CopyAcc.cursor (pre ++ rest) pre.length) s =
        CopyAcc.cursor (pre ++ s.map Cell.ch ++ [Cell.nul] ++ rest.drop (s.length + 1))
          (pre.length + s.length) := by
      simp [stpcpy_acc, stpcpy_spec s pre rest hs]
    cases t with
    | nil =>
      simp only [List.foldl, hstep]
      simp
    | cons s2 t2 =>
      have hflat : (s :: s2 :: t2).flatten.length =
          s.length + (s2 :: t2).flatten.length := by simp
      have hrest2 : (s2 :: t2).flatten.length <
          ([Cell.nul] ++ rest.drop (s.length + 1)).length := by
        simp only [List.length_append, List.length_cons, List.length_nil, List.length_drop]
        omega
      have hpre2 : pre.length + s.length = (pre ++ s.map Cell.ch).length := by simp
      have hbuf : pre ++ s.map Cell.ch ++ [Cell.nul] ++ rest.drop (s.length + 1) =
          (pre ++ s.map Cell.ch) ++ ([Cell.nul] ++ rest.drop (s.length + 1)) := by
        simp [List.append_assoc]
      have ihx := ih (by simp) (pre ++ s.map Cell.ch) ([Cell.nul] ++ rest.drop (s.length + 1)) hrest2
      rw [List.foldl_cons, hstep, hbuf, hpre2, ihx]
      have h9 : (s :: s2 :: t2).flatten.length + 1 =
          s.length + 1 + (s2 :: t2).flatten.length := by
        simp only [List.flatten_cons, List.length_append]
        omega
      have hdrop : ([Cell.nul] ++ rest.drop (s.length + 1)).drop
          ((s2 :: t2).flatten.length + 1) =
          rest.drop ((s :: s2 :: t2).flatten.length + 1) := by
        rw [List.singleton_append, List.drop_succ_cons, List.drop_drop, ← h9]
      rw [hdrop]
      simp only [CopyAcc.cursor.injEq]
      refine ⟨?_, ?_⟩
      · simp [List.append_assoc, List.flatten_cons, List.map_append]
      · simp only [List.length_append, List.length_map, List.flatten_cons]
        omega

/-- A buffer holding a string's characters followed by a NUL reads back
as exactly that string, whatever lies beyond the terminator. -/
theorem read_cstring_terminated (s : Str) (junk : Buffer) :
    read_cstring (s.map Cell.ch ++ Cell.nul :: junk) = some s := by
  induction s with
  | nil => rfl
  | cons c cs ih => simp [read_cstring, ih]

theorem fold_list_fault (l : List Str) :
    fold_list l CopyAcc.fault stpcpy_acc = CopyAcc.fault := by
  induction l with
  | nil => rfl
  | cons s t ih => simpa [fold_list, stpcpy_acc] using ih

/-- Handing the copy fold the NULL pointer of a failed allocation writes
through NULL as soon as the collection has an element. -/
theorem fold_list_nullPtr (s : Str) (t : List Str) :
    fold_list (s :: t) CopyAcc.nullPtr stpcpy_acc = CopyAcc.fault := by
  simpa [fold_list, stpcpy_acc] using fold_list_fault t

/-- `concat(fold_list, l)` on a successful allocation over a nonempty
list: the returned buffer holds the characters of every element in
order, terminated by a single NUL. -/
theorem concat_fold_list_nonempty (l : List Str) (hl : l ≠ []) :
    concat (fun α => @fold_list Str α) l true =
      ⟨some (l.flatten.map Cell.ch ++ [Cell.nul]), false⟩ := by
  have hn : fold_list l (0 : Nat) accumulate_length = l.flatten.length := by
    rw [fold_list_eq_foldl]
    simpa using foldl_accumulate_length l 0
  have hrest : l.flatten.length < (malloc_buffer (l.flatten.length + 1)).length := by
    simp [malloc_buffer]
  have hcopy := copy_fold_spec l hl [] (malloc_buffer (l.flatten.length + 1)) hrest
  have hdrop : (malloc_buffer (l.flatten.length + 1)).drop (l.flatten.length + 1) = [] := by
    simp [malloc_buffer]
  simp only [List.nil_append, List.length_nil, Nat.zero_add, hdrop, List.append_nil] at hcopy
  have hfold : fold_list l
      (CopyAcc.cursor (malloc_buffer (l.flatten.length + 1)) 0) stpcpy_acc =
      CopyAcc.cursor (l.flatten.map Cell.ch ++ [Cell.nul]) l.flatten.length := by
    rw [fold_list_eq_foldl]
    exact hcopy
  have hconcat : concat (fun α => @fold_list Str α) l true =
      match fold_list l
          (CopyAcc.cursor (malloc_buffer (fold_list l (0 : Nat) accumulate_length + 1)) 0)
          stpcpy_acc with
      | CopyAcc.cursor buf _ => (⟨some buf, false⟩ : ConcatResult)
      | CopyAcc.nullPtr => ⟨none, false⟩
      | CopyAcc.fault => ⟨none, true⟩ := rfl
  rw [hconcat, hn, hfold]

/-- The full §4.3 guarantee for a nonempty collection: the result reads
back as the ordered concatenation of the elements, and its length is the
sum of the element lengths. -/
theorem concat_nonempty_guarantee (l : List Str) (hl : l ≠ []) :
    (concat (fun α => @fold_list Str α) l true).ret.bind read_cstring = some l.flatten ∧
    l.flatten.length = (l.map strlen).sum := by
  refine ⟨?_, ?_⟩
  · rw [concat_fold_list_nonempty l hl]
    simpa using read_cstring_terminated l.flatten []
  · have h : l.map strlen = l.map List.length := rfl
    rw [h]
    simp

/-- Starting from a valid write cursor, the copy fold always ends on a
valid write cursor. -/
theorem fold_list_cursor (l : List Str) (buf : Buffer) (p : Nat) :
    ∃ r : Buffer × Nat, fold_list l (CopyAcc.cursor buf p) stpcpy_acc = CopyAcc.cursor r.1 r.2 := by
  induction l generalizing buf p with
  | nil => exact ⟨(buf, p), rfl⟩
  | cons s t ih => simpa [fold_list, stpcpy_acc] using ih (stpcpy buf p s).1 (stpcpy buf p s).2

theorem represents_cons_inv {h : Heap} {p : Option Nat} {s : Str} {t : List Str}
    (hrep : represents h p (s :: t)) :
    ∃ a nxt, p = some a ∧ h.get? a = some ⟨s, nxt⟩ ∧ represents h nxt t := by
  cases hrep
  exact ⟨_, _, rfl, by assumption, by assumption⟩

/-- The heap-level list fold terminates with the heap unchanged and
computes exactly the pure fold of the represented contents. -/
theorem fold_string_list_mem_spec {α : Type} (l : List Str) :
    ∀ (fuel : Nat) (h : Heap) (p : Option Nat) (init : α) (op : α → Str → α),
    represents h p l → l.length ≤ fuel →
    fold_string_list_mem fuel h p init op = some (fold_string_list l init op, h) := by
  induction l with
  | nil =>
    intro fuel h p init op hrep _
    cases hrep
    cases fuel <;> rfl
  | cons s t ih =>
    intro fuel h p init op hrep hfuel
    obtain ⟨a, nxt, rfl, hget, hrep2⟩ := represents_cons_inv hrep
    cases fuel with
    | zero => simp at hfuel
    | succ f =>
      have hf : t.length ≤ f := Nat.le_of_succ_le_succ hfuel
      simp only [fold_string_list_mem, hget]
      exact ih f h nxt (op init s) op hrep2 hf

/-! ### The claims -/

/-- Claim C1. The guarantee fails at the empty sequence: the allocation
succeeds, but no `stpcpy` is ever invoked, so `concat` returns a 1-byte
buffer whose single byte is still uninitialized, with no NUL terminator.
Reading it as a string is undefined instead of the promised empty
string. (For nonempty sequences the guarantee does hold: see
`concat_nonempty_guarantee`.) -/
theorem concat_empty_counted_array_unterminated :
    concat (fun α => @fold_counted_array Str α) ⟨[], 0⟩ true = ⟨some [Cell.undef], false⟩ ∧
    read_cstring [Cell.undef] = none := by
  exact ⟨by decide, rfl⟩

/-- Claim C2. On allocation failure, `concat_string_list` and
`concat_list` return NULL without touching the failed buffer — but the
generic `concat` runs the copy fold unconditionally, so with a nonempty
collection it writes through the NULL pointer, contradicting the claim. -/
theorem concat_alloc_failure_behaviour :
    concat (fun α => @fold_list Str α) ["foo".toList, "bar".toList] false = ⟨none, true⟩ ∧
    concat_string_list ["foo".toList, "bar".toList] false = ⟨none, false⟩ ∧
    concat_list ["foo".toList, "bar".toList] false = ⟨none, false⟩ := by
  exact ⟨by decide, by decide, by decide⟩

/-- Claim C3. Every fold operation of the file is the left fold: it
threads the accumulator left to right through the elements in storage
order, so the result is `op (... op (op init e1) e2 ...) en`; the trace
instantiation shows the elements are consumed exactly in order, and the
counting instantiation shows the reducer is invoked exactly `length`
times. -/
theorem fold_operations_left_to_right :
    (∀ (xs : List Int) (init : Int) (op : Int → Int → Int),
      fold_int_array xs xs.length init op = xs.foldl op init) ∧
    (∀ (α : Type) (l : List Str) (init : α) (op : α → Str → α),
      fold_string_list l init op = l.foldl op init) ∧
    (∀ (ε α : Type) (l : List ε) (init : α) (op : α → ε → α),
      fold_list l init op = l.foldl op init) ∧
    (∀ (ε α : Type) (xs : List ε) (init : α) (op : α → ε → α),
      fold_array xs xs.length init op = xs.foldl op init) ∧
    (∀ (ε α : Type) (xs : List ε) (init : α) (op : α → ε → α),
      fold_counted_array ⟨xs, xs.length⟩ init op = xs.foldl op init) ∧
    (∀ (ε : Type) (l : List ε), fold_list l ([] : List ε) (fun t e => t ++ [e]) = l) ∧
    (∀ (ε : Type) (l : List ε), fold_list l (0 : Nat) (fun k _ => k + 1) = l.length) := by
  refine ⟨fold_int_array_eq_foldl,
    fun α l init op => fold_string_list_eq_foldl l init op,
    fun ε α l init op => fold_list_eq_foldl l init op,
    fun ε α xs init op => fold_array_eq_foldl xs init op,
    fun ε α xs init op => ?_,
    fun ε l => ?_,
    fun ε l => ?_⟩
  · rw [fold_counted_array_eq_fold_list, fold_list_eq_foldl]
  · rw [fold_list_eq_foldl]
    simpa using foldl_snoc_trace l []
  · rw [fold_list_eq_foldl]
    simpa using foldl_count l 0

/-- Claim C4. `concat` is shape-independent: on a counted array and a
linked list with the same ordered contents it computes the very same
outcome, and its returned string agrees with the specialized
`concat_string_list` in every allocation scenario. -/
theorem concat_shape_independent (l : List Str) (ok : Bool) :
    concat (fun α => @fold_counted_array Str α) ⟨l, l.length⟩ ok =
      concat (fun α => @fold_list Str α) l ok ∧
    (concat (fun α => @fold_list Str α) l ok).ret = (concat_string_list l ok).ret := by
  constructor
  · simp only [concat, fold_counted_array_eq_fold_list]
  · cases ok with
    | true =>
      obtain ⟨r, hr⟩ :=
        fold_list_cursor l (malloc_buffer (fold_list l (0 : Nat) accumulate_length + 1)) 0
      simp [concat, concat_string_list, fold_string_list_eq_fold_list, hr]
    | false =>
      cases l with
      | nil => rfl
      | cons s t => simp [concat, concat_string_list, fold_list_nullPtr]

/-- Claim C5. `concat_string_list` of the empty list does not yield an
empty string: the single allocated byte is never written (the copy fold
makes no `stpcpy` call), so its first character is the uninitialized
byte, not the terminator, and reading the buffer as a string is
undefined. -/
theorem concat_string_list_empty_unterminated :
    concat_string_list [] true = ⟨some [Cell.undef], false⟩ ∧
    read_cstring [Cell.undef] = none ∧
    [Cell.undef].head? ≠ some Cell.nul := by
  exact ⟨by decide, rfl, by decide⟩

/-- Claim C6. Folding an empty sequence — a NULL list or an array of
length 0 — returns the initial accumulator unchanged, for every reducer
and every initial value, in all five fold operations. -/
theorem fold_empty_returns_initial :
    (∀ (xs : List Int) (init : Int) (op : Int → Int → Int),
      fold_int_array xs 0 init op = init) ∧
    (∀ (α : Type) (init : α) (op : α → Str → α), fold_string_list [] init op = init) ∧
    (∀ (ε α : Type) (init : α) (op : α → ε → α), fold_list [] init op = init) ∧
    (∀ (ε α : Type) (xs : List ε) (init : α) (op : α → ε → α),
      fold_array xs 0 init op = init) ∧
    (∀ (ε α : Type) (xs : List ε) (init : α) (op : α → ε → α),
      fold_counted_array ⟨xs, 0⟩ init op = init) := by
  refine ⟨fold_int_array_zero,
    fun α init op => rfl,
    fun ε α init op => rfl,
    fun ε α xs init op => fold_array_zero xs init op,
    fun ε α xs init op => fold_array_zero xs init op⟩

/-- Claim C7. A fold has no side effects: run against an explicit heap,
the list fold returns the heap exactly as it received it, and its result
is the pure fold of the represented contents, the initial accumulator
and the reducer alone; the array fold likewise depends only on the first
`length` stored elements, not on surrounding storage. -/
theorem fold_is_pure_and_frame :
    (∀ (α : Type) (fuel : Nat) (h : Heap) (p : Option Nat) (l : List Str) (init : α)
      (op : α → Str → α), represents h p l → l.length ≤ fuel →
      fold_string_list_mem fuel h p init op = some (fold_string_list l init op, h)) ∧
    (∀ (ε α : Type) (xs junk : List ε) (init : α) (op : α → ε → α),
      fold_array (xs ++ junk) xs.length init op = fold_array xs xs.length init op) := by
  exact ⟨fun α fuel h p l init op hrep hfuel =>
      fold_string_list_mem_spec l fuel h p init op hrep hfuel,
    fun ε α xs junk init op => fold_array_frame xs junk init op⟩

/-- Witness for C7 at a concrete two-node heap holding `"foo"` then
`"bar"`: the heap fold computes the total length 6 and returns the heap
unchanged. -/
theorem fold_is_pure_and_frame_witness :
    represents [⟨"foo".toList, some 1⟩, ⟨"bar".toList, none⟩] (some 0)
      ["foo".toList, "bar".toList] ∧
    (["foo".toList, "bar".toList] : List Str).length ≤ 2 ∧
    fold_string_list_mem 2 [⟨"foo".toList, some 1⟩, ⟨"bar".toList, none⟩] (some 0)
      (0 : Nat) accumulate_length =
      some (6, [⟨"foo".toList, some 1⟩, ⟨"bar".toList, none⟩]) :=
  have hrep : represents [⟨"foo".toList, some 1⟩, ⟨"bar".toList, none⟩] (some 0)
      ["foo".toList, "bar".toList] :=
    represents.cons _ _ _ _ _ rfl (represents.cons _ _ _ _ _ rfl (represents.nil _))
  ⟨hrep, by decide,
    (fold_is_pure_and_frame.1 Nat 2 _ (some 0) ["foo".toList, "bar".toList] 0
      accumulate_length hrep (by decide)).trans (by decide)⟩

/-- Claim C8. The two scenarios asserted in `main`: the list `"foo"`,
`"bar"` concatenates to `"foobar"`, and the counted array `"hello"`,
`"world"` concatenates to `"helloworld"`. -/
theorem concat_main_scenarios :
    (concat (fun α => @fold_list Str α) ["foo".toList, "bar".toList] true).ret.bind
      read_cstring = some "foobar".toList ∧
    (concat (fun α => @fold_counted_array Str α)
      ⟨["hello".toList, "world".toList], 2⟩ true).ret.bind
      read_cstring = some "helloworld".toList := by
  exact ⟨by decide, by decide⟩

/-- Claim C9. Folding the int array `[1,2,3,4]` with initial accumulator
0 and the addition reducer yields 10, and so does `sum_array`. -/
theorem sum_array_example :
    fold_int_array [1, 2, 3, 4] 4 0 sum = 10 ∧ sum_array [1, 2, 3, 4] 4 = 10 := by
  exact ⟨by decide, by decide⟩

/-- Claim C10. The direct-loop and fold-based formulations agree:
`sum_array` equals `sum_array_direct` on every in-bounds length, and
`size_list` equals the length fold over the same list. -/
theorem direct_and_fold_formulations_agree :
    (∀ (xs : List Int) (n : Nat), n ≤ xs.length →
      sum_array xs n = sum_array_direct xs n) ∧
    (∀ (l : List Str), size_list l = fold_string_list l 0 accumulate_length) := by
  constructor
  · have hloops : ∀ (xs : List Int) (n : Nat) (s : Int),
        fold_int_array xs n s sum = sum_array_direct_loop xs n s := by
      intro xs
      induction xs with
      | nil => intro n s; cases n <;> rfl
      | cons x t ih =>
        intro n s
        cases n with
        | zero => rfl
        | succ m => simpa [fold_int_array, sum_array_direct_loop, sum] using ih m (s + x)
    intro xs n _
    exact hloops xs n 0
  · intro l
    rw [fold_string_list_eq_foldl, size_list_eq_join_length]
    simpa using (foldl_accumulate_length l 0).symm

/-- Witness for C10 at the concrete array of `main`'s third scenario. -/
theorem direct_and_fold_formulations_agree_witness :
    4 ≤ ([1, 2, 3, 4] : List Int).length ∧
    sum_array [1, 2, 3, 4] 4 = sum_array_direct [1, 2, 3, 4] 4 :=
  ⟨by decide, direct_and_fold_formulations_agree.1 [1, 2, 3, 4] 4 (by decide)⟩
